import Mathlib

/-!
Verification of the FastRAMQPI integration shim.

This file gives a shallow embedding of `fastramqpi/fastapi.py` and
`fastramqpi/pytest_plugin.py` and proves properties of the readiness
probe, the lifespan-manager composition, the registration helpers
(`add_healthcheck`, `add_lifespan_manager`, `add_context`) and the
pytest fixtures (`amqp_queue_isolation`, `amqp_event_emitter`).

Modelling conventions:
* Python dicts (which preserve insertion order) are association lists.
* Python sets are duplicate-free lists in some enumeration order.
* An awaited coroutine that may raise is a value of an outcome type
  (`CheckOutcome`, `Except`); `except` blocks are matches on it.
-/

namespace FastRAMQPI

/-- HTTP status constant, from `starlette.status`. -/
def HTTP_204_NO_CONTENT : Nat := 204

/-- HTTP status constant, from `starlette.status`. -/
def HTTP_503_SERVICE_UNAVAILABLE : Nat := 503

/-- Outcome of `await healthcheck(context)` in `readiness`
(`fastapi.py` line 96): either the coroutine returns a boolean, or it
raises an exception. -/
inductive CheckOutcome where
  | ok (ready : Bool)
  | exn
deriving DecidableEq, Repr

/-- State of the `readiness` handler after its `for` loop
(`fastapi.py` lines 93-102): the `all_ready` flag, whether an exception
was caught by the `except` block, and how many healthchecks were
actually invoked before the loop ended. -/
structure LoopState where
  all_ready : Bool
  raised : Bool
  invoked : Nat
deriving DecidableEq, Repr

/-- The `for name, healthcheck in healthchecks.items()` loop of
`readiness` (`fastapi.py` lines 95-99), wrapped in `try/except`:
each check is invoked with the shared context; a `False` result clears
`all_ready` and iteration continues; an exception aborts the loop
immediately (the raising check counts as invoked, later ones are never
reached). -/
def readinessLoop {κ : Type} (ctx : κ) :
    List (String × (κ → CheckOutcome)) → Bool → LoopState
  | [], all_ready => ⟨all_ready, false, 0⟩
  | (_, healthcheck) :: rest, all_ready =>
    match healthcheck ctx with
    | .exn => ⟨all_ready, true, 1⟩
    | .ok ready =>
      let s := readinessLoop ctx rest (if ready then all_ready else false)
      ⟨s.all_ready, s.raised, s.invoked + 1⟩

/-- The `readiness` endpoint handler (`fastapi.py` lines 87-107):
status starts at 204, the `except` block downgrades it to 503, and a
cleared `all_ready` flag downgrades it to 503 as well. -/
def readiness {κ : Type} (ctx : κ)
    (healthchecks : List (String × (κ → CheckOutcome))) : Nat :=
  let s := readinessLoop ctx healthchecks true
  let status := HTTP_204_NO_CONTENT
  let status := if s.raised then HTTP_503_SERVICE_UNAVAILABLE else status
  if !s.all_ready then HTTP_503_SERVICE_UNAVAILABLE else status

/-- Boolean test that a healthcheck, invoked with the shared context,
returns `True`. -/
def returnsTrue {κ : Type} (ctx : κ) (c : String × (κ → CheckOutcome)) : Bool :=
  match c.2 ctx with
  | .ok true => true
  | _ => false

theorem returnsTrue_eq_true_iff {κ : Type} (ctx : κ)
    (c : String × (κ → CheckOutcome)) :
    returnsTrue ctx c = true ↔ c.2 ctx = .ok true := by
  unfold returnsTrue
  cases h : c.2 ctx with
  | ok b => cases b <;> simp
  | exn => simp

theorem readinessLoop_ok_iff {κ : Type} (ctx : κ)
    (l : List (String × (κ → CheckOutcome))) (b : Bool) :
    ((readinessLoop ctx l b).raised = false ∧
      (readinessLoop ctx l b).all_ready = true) ↔
    (b = true ∧ ∀ c ∈ l, c.2 ctx = .ok true) := by
  induction l generalizing b with
  | nil => simp [readinessLoop]
  | cons c rest ih =>
    obtain ⟨n, hc⟩ := c
    cases hhc : hc ctx with
    | exn =>
      simp only [readinessLoop, hhc]
      constructor
      · rintro ⟨h, -⟩; cases h
      · rintro ⟨-, hall⟩
        have := hall (n, hc) (List.mem_cons_self _ _)
        simp [hhc] at this
    | ok r =>
      simp only [readinessLoop, hhc]
      rw [ih]
      constructor
      · rintro ⟨hb, hall⟩
        cases r with
        | true =>
          simp only [if_true] at hb
          refine ⟨hb, ?_⟩
          intro c hmem
          rcases List.mem_cons.mp hmem with hfst | hrest
          · subst hfst; simp [hhc]
          · exact hall c hrest
        | false => simp at hb
      · rintro ⟨hb, hall⟩
        have hhead := hall (n, hc) (List.mem_cons_self _ _)
        simp only [hhc, CheckOutcome.ok.injEq] at hhead
        subst hhead
        refine ⟨by simpa using hb, ?_⟩
        intro c hmem
        exact hall c (List.mem_cons_of_mem _ hmem)

theorem readiness_eq_204_iff_loop {κ : Type} (ctx : κ)
    (l : List (String × (κ → CheckOutcome))) :
    readiness ctx l = HTTP_204_NO_CONTENT ↔
    ((readinessLoop ctx l true).raised = false ∧
      (readinessLoop ctx l true).all_ready = true) := by
  unfold readiness
  cases h1 : (readinessLoop ctx l true).raised <;>
    cases h2 : (readinessLoop ctx l true).all_ready <;>
      simp [h1, h2, HTTP_204_NO_CONTENT, HTTP_503_SERVICE_UNAVAILABLE]

/-- C1: for every set of registered health checks, `GET /health/ready`
returns 204 if and only if every registered check, invoked with the
shared context, returns true; it returns 503 if any check returns false
or raises an exception. -/
theorem readiness_ready_iff {κ : Type} (ctx : κ)
    (healthchecks : List (String × (κ → CheckOutcome))) :
    (readiness ctx healthchecks = HTTP_204_NO_CONTENT ↔
      ∀ c ∈ healthchecks, c.2 ctx = .ok true) ∧
    ((∃ c ∈ healthchecks, c.2 ctx = .ok false ∨ c.2 ctx = .exn) →
      readiness ctx healthchecks = HTTP_503_SERVICE_UNAVAILABLE) := by
  have hiff : readiness ctx healthchecks = HTTP_204_NO_CONTENT ↔
      ∀ c ∈ healthchecks, c.2 ctx = .ok true := by
    rw [readiness_eq_204_iff_loop, readinessLoop_ok_iff]
    simp
  refine ⟨hiff, ?_⟩
  rintro ⟨c, hmem, hbad⟩
  have hne : readiness ctx healthchecks ≠ HTTP_204_NO_CONTENT := by
    intro h204
    have := (hiff.mp h204) c hmem
    rcases hbad with hfalse | hexn
    · rw [hfalse] at this; cases this
    · rw [hexn] at this; cases this
  unfold readiness at hne ⊢
  cases h1 : (readinessLoop ctx healthchecks true).raised <;>
    cases h2 : (readinessLoop ctx healthchecks true).all_ready <;>
      simp_all [HTTP_204_NO_CONTENT, HTTP_503_SERVICE_UNAVAILABLE]

/-- Witness for C1: one passing check yields 204; adding a failing
check yields 503. -/
theorem readiness_ready_iff_witness :
    readiness () [("ok", fun _ => CheckOutcome.ok true)] = HTTP_204_NO_CONTENT ∧
    readiness () [("ok", fun _ => CheckOutcome.ok true),
                  ("bad", fun _ => CheckOutcome.ok false)] =
      HTTP_503_SERVICE_UNAVAILABLE := by
  constructor
  · exact (readiness_ready_iff () [("ok", fun _ => CheckOutcome.ok true)]).1.mpr
      (by decide)
  · exact (readiness_ready_iff ()
      [("ok", fun _ => CheckOutcome.ok true),
       ("bad", fun _ => CheckOutcome.ok false)]).2
      ⟨("bad", fun _ => CheckOutcome.ok false), by simp, Or.inl rfl⟩

/-- C4: the readiness handler is a total function into {204, 503}: an
exception in a check is caught (the `except` block) and produces 503;
no error propagates out of the handler. -/
theorem readiness_total {κ : Type} (ctx : κ)
    (healthchecks : List (String × (κ → CheckOutcome))) :
    (readiness ctx healthchecks = HTTP_204_NO_CONTENT ∨
      readiness ctx healthchecks = HTTP_503_SERVICE_UNAVAILABLE) ∧
    ((∃ c ∈ healthchecks, c.2 ctx = .exn) →
      readiness ctx healthchecks = HTTP_503_SERVICE_UNAVAILABLE) := by
  constructor
  · unfold readiness
    cases h1 : (readinessLoop ctx healthchecks true).raised <;>
      cases h2 : (readinessLoop ctx healthchecks true).all_ready <;>
        simp [h1, h2]
  · rintro ⟨c, hmem, hexn⟩
    exact (readiness_ready_iff ctx healthchecks).2 ⟨c, hmem, Or.inr hexn⟩

/-- Witness for C4: a raising check produces 503. -/
theorem readiness_total_witness :
    readiness () [("boom", fun _ => CheckOutcome.exn)] =
      HTTP_503_SERVICE_UNAVAILABLE :=
  (readiness_total () [("boom", fun _ => CheckOutcome.exn)]).2
    ⟨("boom", fun _ => CheckOutcome.exn), by simp, rfl⟩

theorem readinessLoop_invoked_no_exn {κ : Type} (ctx : κ)
    (l : List (String × (κ → CheckOutcome))) (b : Bool)
    (h : ∀ c ∈ l, c.2 ctx ≠ .exn) :
    (readinessLoop ctx l b).invoked = l.length := by
  induction l generalizing b with
  | nil => simp [readinessLoop]
  | cons c rest ih =>
    obtain ⟨n, hc⟩ := c
    cases hhc : hc ctx with
    | exn =>
      have := h (n, hc) (List.mem_cons_self _ _)
      simp [hhc] at this
    | ok r =>
      simp only [readinessLoop, hhc, List.length_cons]
      rw [ih _ (fun c hmem => h c (List.mem_cons_of_mem _ hmem))]

theorem readinessLoop_invoked_exn {κ : Type} (ctx : κ)
    (pre post : List (String × (κ → CheckOutcome)))
    (e : String × (κ → CheckOutcome)) (b : Bool)
    (hpre : ∀ c ∈ pre, c.2 ctx ≠ .exn) (he : e.2 ctx = .exn) :
    (readinessLoop ctx (pre ++ e :: post) b).invoked = pre.length + 1 := by
  induction pre generalizing b with
  | nil =>
    obtain ⟨n, hc⟩ := e
    simp only [List.nil_append, List.length_nil]
    simp only [readinessLoop]
    simp only [Prod.snd] at he
    simp [he]
  | cons c pre' ih =>
    obtain ⟨n, hc⟩ := c
    cases hhc : hc ctx with
    | exn =>
      have := hpre (n, hc) (List.mem_cons_self _ _)
      simp [hhc] at this
    | ok r =>
      simp only [List.cons_append, readinessLoop, hhc, List.length_cons,
        List.append_eq]
      rw [ih _ (fun c hmem => hpre c (List.mem_cons_of_mem _ hmem))]

/-- C10: if a health check raises, the checks registered after it are
not invoked (the number of invoked checks is exactly the position of
the raising check plus one) and the response is 503 regardless of
earlier results; if checks merely return false, every registered check
is still invoked. -/
theorem readiness_invocation {κ : Type} (ctx : κ)
    (pre post : List (String × (κ → CheckOutcome)))
    (e : String × (κ → CheckOutcome))
    (hpre : ∀ c ∈ pre, c.2 ctx ≠ .exn) (he : e.2 ctx = .exn) :
    (readinessLoop ctx (pre ++ e :: post) true).invoked = pre.length + 1 ∧
    readiness ctx (pre ++ e :: post) = HTTP_503_SERVICE_UNAVAILABLE ∧
    (∀ l : List (String × (κ → CheckOutcome)), (∀ c ∈ l, c.2 ctx ≠ .exn) →
      (readinessLoop ctx l true).invoked = l.length) := by
  refine ⟨readinessLoop_invoked_exn ctx pre post e true hpre he, ?_, ?_⟩
  · exact (readiness_ready_iff ctx (pre ++ e :: post)).2
      ⟨e, by simp, Or.inr he⟩
  · intro l hl
    exact readinessLoop_invoked_no_exn ctx l true hl

/-- Witness for C10: with checks [false, raise, true], only the first
two are invoked and the response is 503; with checks [false, true],
both are invoked. -/
theorem readiness_invocation_witness :
    (readinessLoop () ([("a", fun _ => CheckOutcome.ok false)] ++
      ("b", fun _ => CheckOutcome.exn) ::
        [("c", fun _ => CheckOutcome.ok true)]) true).invoked = 2 ∧
    readiness () ([("a", fun _ => CheckOutcome.ok false)] ++
      ("b", fun _ => CheckOutcome.exn) ::
        [("c", fun _ => CheckOutcome.ok true)]) =
      HTTP_503_SERVICE_UNAVAILABLE ∧
    (readinessLoop () [("a", fun _ : Unit => CheckOutcome.ok false),
      ("c", fun _ => CheckOutcome.ok true)] true).invoked = 2 := by
  have h := readiness_invocation ()
    [("a", fun _ : Unit => CheckOutcome.ok false)]
    [("c", fun _ => CheckOutcome.ok true)]
    ("b", fun _ => CheckOutcome.exn)
    (by simp) rfl
  exact ⟨h.1, h.2.1, h.2.2 [("a", fun _ : Unit => CheckOutcome.ok false),
    ("c", fun _ => CheckOutcome.ok true)] (by simp)⟩

/-- An async context manager as registered with `add_lifespan_manager`
(`fastapi.py` lines 179-193): identified by `id`; `enterFails` models
whether its `__aenter__` raises when the exit stack enters it. -/
structure Manager where
  id : Nat
  enterFails : Bool
deriving DecidableEq, Repr

/-- Stable insertion of one dict item into a key-ordered item list;
`sortedItems` folds it to model `sorted(lifespan_managers.items())`
(`fastapi.py` line 121). Keys of a dict are distinct, so ties do not
arise. -/
def insertItem (x : Int × List Manager) :
    List (Int × List Manager) → List (Int × List Manager)
  | [] => [x]
  | y :: ys => if x.1 ≤ y.1 then x :: y :: ys else y :: insertItem x ys

/-- Model of `sorted(lifespan_managers.items())` (`fastapi.py`
line 121): the dict items sorted by priority key. -/
def sortedItems (lm : List (Int × List Manager)) :
    List (Int × List Manager) :=
  lm.foldr insertItem []

/-- Tag every manager of one priority group with its priority, in the
group's enumeration order (the inner `for lifespan_manager in
priority_set` loop, `fastapi.py` line 122). -/
def attachPriority (pr : Int × List Manager) : List (Int × Manager) :=
  pr.2.map (fun m => (pr.1, m))

/-- The sequence in which `_lifespan` calls
`stack.enter_async_context` (`fastapi.py` lines 121-123): all managers
of the lowest priority first, then the next priority, and so on. -/
def enterOrder (lm : List (Int × List Manager)) : List (Int × Manager) :=
  ((sortedItems lm).map attachPriority).flatten

/-- All registered managers with their priorities, in raw dict order
(no sorting). -/
def allRegistered (lm : List (Int × List Manager)) : List (Int × Manager) :=
  (lm.map attachPriority).flatten

/-- The entry loop of `_lifespan` against an `AsyncExitStack`: each
successfully entered manager is pushed onto the stack; a manager whose
`__aenter__` raises stops the loop (and is itself not pushed, matching
`AsyncExitStack.enter_async_context`). Returns the final stack
(top first) and whether an entry failed. -/
def enterLoop : List (Int × Manager) → List (Int × Manager) →
    List (Int × Manager) × Bool
  | [], stack => (stack, false)
  | m :: rest, stack =>
    if m.2.enterFails then (stack, true)
    else enterLoop rest (m :: stack)

/-- Unwinding an `AsyncExitStack`: exit callbacks are popped and run
top-of-stack first (LIFO), both at shutdown and when startup fails
mid-way. Returns the managers in the order they are exited. -/
def unwindStack : List (Int × Manager) → List (Int × Manager)
  | [] => []
  | top :: rest => top :: unwindStack rest

/-- One full run of `_lifespan` (`fastapi.py` lines 110-125): returns
the managers entered in entry order, whether startup failed, and the
exit sequence produced by unwinding the stack. -/
def lifespanRun (lm : List (Int × List Manager)) :
    List (Int × Manager) × Bool × List (Int × Manager) :=
  let r := enterLoop (enterOrder lm) []
  (r.1.reverse, r.2, unwindStack r.1)

theorem insertItem_perm (x : Int × List Manager)
    (l : List (Int × List Manager)) : (insertItem x l).Perm (x :: l) := by
  induction l with
  | nil => rfl
  | cons y ys ih =>
    unfold insertItem
    by_cases h : x.1 ≤ y.1
    · simp [h]
    · simp only [if_neg h]
      exact (ih.cons y).trans (List.Perm.swap x y ys)

theorem sortedItems_perm (lm : List (Int × List Manager)) :
    (sortedItems lm).Perm lm := by
  induction lm with
  | nil => rfl
  | cons x xs ih =>
    exact (insertItem_perm x (sortedItems xs)).trans (ih.cons x)

theorem pairwise_insertItem (x : Int × List Manager)
    (l : List (Int × List Manager))
    (h : l.Pairwise (fun a b => a.1 ≤ b.1)) :
    (insertItem x l).Pairwise (fun a b => a.1 ≤ b.1) := by
  induction l with
  | nil => simp [insertItem]
  | cons y ys ih =>
    rw [List.pairwise_cons] at h
    unfold insertItem
    by_cases hxy : x.1 ≤ y.1
    · rw [if_pos hxy]
      rw [List.pairwise_cons]
      refine ⟨?_, List.pairwise_cons.mpr h⟩
      intro z hz
      rcases List.mem_cons.mp hz with rfl | hz'
      · exact hxy
      · exact le_trans hxy (h.1 z hz')
    · rw [if_neg hxy]
      rw [List.pairwise_cons]
      refine ⟨?_, ih h.2⟩
      intro z hz
      rcases List.mem_cons.mp ((insertItem_perm x ys).mem_iff.mp hz) with
        rfl | hz'
      · exact le_of_not_le hxy
      · exact h.1 z hz'

theorem pairwise_sortedItems (lm : List (Int × List Manager)) :
    (sortedItems lm).Pairwise (fun a b => a.1 ≤ b.1) := by
  induction lm with
  | nil => simp [sortedItems]
  | cons x xs ih => exact pairwise_insertItem x (sortedItems xs) ih

theorem enterLoop_spec (order : List (Int × Manager)) :
    ∀ acc, enterLoop order acc =
      ((order.takeWhile (fun m => !m.2.enterFails)).reverse ++ acc,
        order.any (fun m => m.2.enterFails)) := by
  induction order with
  | nil => intro acc; simp [enterLoop]
  | cons m rest ih =>
    intro acc
    cases hm : m.2.enterFails with
    | true => simp [enterLoop, hm, List.takeWhile_cons]
    | false =>
      simp only [enterLoop, hm, if_neg Bool.false_ne_true,
        List.takeWhile_cons, Bool.not_false, if_pos trivial,
        List.any_cons, Bool.false_or, List.reverse_cons, List.append_assoc,
        List.cons_append, List.nil_append]
      exact ih (m :: acc)

theorem unwindStack_eq (s : List (Int × Manager)) : unwindStack s = s := by
  induction s with
  | nil => rfl
  | cons top rest ih => simp [unwindStack, ih]

theorem mem_allRegistered {lm : List (Int × List Manager)}
    {m : Int × Manager} (hm : m ∈ allRegistered lm) :
    ∃ pr ∈ lm, ∃ mgr ∈ pr.2, (pr.1, mgr) = m := by
  unfold allRegistered at hm
  rw [List.mem_flatten] at hm
  obtain ⟨l', hl', hml'⟩ := hm
  rw [List.mem_map] at hl'
  obtain ⟨pr, hpr, rfl⟩ := hl'
  unfold attachPriority at hml'
  rw [List.mem_map] at hml'
  obtain ⟨mgr, hmgr, heq⟩ := hml'
  exact ⟨pr, hpr, mgr, hmgr, heq⟩

/-- C2: on startup all registered lifespan managers are entered in
ascending priority order (entry order is a permutation of the
registered managers whose priority sequence is monotone), and on
shutdown every entered manager is exited in the exact reverse of the
realized entry order. -/
theorem lifespan_order (lm : List (Int × List Manager))
    (hok : ∀ pr ∈ lm, ∀ m ∈ pr.2, m.enterFails = false) :
    (lifespanRun lm).1 = enterOrder lm ∧
    (enterOrder lm).Pairwise (fun a b => a.1 ≤ b.1) ∧
    (enterOrder lm).Perm (allRegistered lm) ∧
    (lifespanRun lm).2.2 = (enterOrder lm).reverse := by
  have hperm : (enterOrder lm).Perm (allRegistered lm) :=
    ((sortedItems_perm lm).map attachPriority).flatten
  have hmem_ok : ∀ m ∈ enterOrder lm, m.2.enterFails = false := by
    intro m hm
    obtain ⟨pr, hpr, mgr, hmgr, heq⟩ :=
      mem_allRegistered (hperm.mem_iff.mp hm)
    have := hok pr hpr mgr hmgr
    rw [← heq]
    exact this
  have htake : (enterOrder lm).takeWhile (fun m => !m.2.enterFails) =
      enterOrder lm := by
    rw [List.takeWhile_eq_self_iff]
    intro x hx
    simp [hmem_ok x hx]
  have hloop := enterLoop_spec (enterOrder lm) []
  have hpw : (enterOrder lm).Pairwise (fun a b => a.1 ≤ b.1) := by
    unfold enterOrder
    rw [List.pairwise_flatten]
    constructor
    · intro l' hl'
      rw [List.mem_map] at hl'
      obtain ⟨pr, -, rfl⟩ := hl'
      unfold attachPriority
      rw [List.pairwise_map]
      exact List.pairwise_of_forall (fun _ _ => le_refl pr.1)
    · rw [List.pairwise_map]
      refine (pairwise_sortedItems lm).imp ?_
      intro a b hab x hx y hy
      unfold attachPriority at hx hy
      rw [List.mem_map] at hx hy
      obtain ⟨ma, -, rfl⟩ := hx
      obtain ⟨mb, -, rfl⟩ := hy
      exact hab
  refine ⟨?_, hpw, hperm, ?_⟩
  · unfold lifespanRun
    rw [hloop]
    simp [htake]
  · unfold lifespanRun
    rw [hloop]
    simp [htake, unwindStack_eq]

/-- A demonstration registration: priorities 20, 10, 30 with four
managers, none of which fails to enter. -/
def demoLM : List (Int × List Manager) :=
  [(20, [⟨2, false⟩, ⟨3, false⟩]), (10, [⟨1, false⟩]), (30, [⟨4, false⟩])]

/-- Witness for C2 at `demoLM`. -/
theorem lifespan_order_witness :
    (lifespanRun demoLM).1 = enterOrder demoLM ∧
    (enterOrder demoLM).Pairwise (fun a b => a.1 ≤ b.1) ∧
    (enterOrder demoLM).Perm (allRegistered demoLM) ∧
    (lifespanRun demoLM).2.2 = (enterOrder demoLM).reverse :=
  lifespan_order demoLM (by decide)

theorem takeWhile_middle {α : Type} (p : α → Bool) (l₁ l₂ : List α) (a : α)
    (h₁ : ∀ x ∈ l₁, p x = true) (ha : p a = false) :
    (l₁ ++ a :: l₂).takeWhile p = l₁ := by
  induction l₁ with
  | nil => simp [List.takeWhile_cons, ha]
  | cons x xs ih =>
    have hx := h₁ x (List.mem_cons_self _ _)
    simp [List.takeWhile_cons, hx,
      ih (fun y hy => h₁ y (List.mem_cons_of_mem _ hy))]

/-- C3: if entering some lifespan manager raises during startup, every
manager entered before the failure is still released, in reverse entry
order, and the run is flagged as failed. -/
theorem lifespan_unwind_on_failure (lm : List (Int × List Manager))
    (pre post : List (Int × Manager)) (f : Int × Manager)
    (horder : enterOrder lm = pre ++ f :: post)
    (hpre : ∀ m ∈ pre, m.2.enterFails = false)
    (hf : f.2.enterFails = true) :
    (lifespanRun lm).1 = pre ∧ (lifespanRun lm).2.1 = true ∧
    (lifespanRun lm).2.2 = pre.reverse := by
  have hloop := enterLoop_spec (enterOrder lm) []
  have htake : (enterOrder lm).takeWhile (fun m => !m.2.enterFails) = pre := by
    rw [horder]
    exact takeWhile_middle _ pre post f (fun x hx => by simp [hpre x hx])
      (by simp [hf])
  have hany : (enterOrder lm).any (fun m => m.2.enterFails) = true := by
    rw [horder]
    simp [List.any_append, hf]
  refine ⟨?_, ?_, ?_⟩
  · unfold lifespanRun
    rw [hloop]
    simp [htake]
  · unfold lifespanRun
    rw [hloop]
    simp [hany]
  · unfold lifespanRun
    rw [hloop]
    simp [htake, unwindStack_eq]

/-- A demonstration registration whose priority-20 manager fails to
enter. -/
def demoLMFail : List (Int × List Manager) :=
  [(10, [⟨1, false⟩]), (20, [⟨2, true⟩]), (30, [⟨3, false⟩])]

/-- Witness for C3 at `demoLMFail`: only the priority-10 manager was
entered, and it is the one released. -/
theorem lifespan_unwind_on_failure_witness :
    (lifespanRun demoLMFail).1 = [((10 : Int), Manager.mk 1 false)] ∧
    (lifespanRun demoLMFail).2.1 = true ∧
    (lifespanRun demoLMFail).2.2 = [((10 : Int), Manager.mk 1 false)].reverse :=
  lifespan_unwind_on_failure demoLMFail
    [((10 : Int), Manager.mk 1 false)]
    [((30 : Int), Manager.mk 3 false)]
    ((20 : Int), Manager.mk 2 true)
    (by decide) (by decide) (by decide)

/-- Python `set.add`: a no-op when the element is already a member,
otherwise the element joins the set (duplicate-free list model). -/
def setAdd (s : List Manager) (m : Manager) : List Manager :=
  if m ∈ s then s else s ++ [m]

/-- Model of `FastAPIIntegrationSystem.add_lifespan_manager` (`fastapi.py`
lines 179-193): `setdefault(priority, set())` followed by
`priority_set.add(manager)` on the priority-keyed dict. -/
def add_lifespan_manager (lm : List (Int × List Manager))
    (manager : Manager) (priority : Int) : List (Int × List Manager) :=
  if lm.any (fun e => e.1 = priority) then
    lm.map (fun e =>
      if e.1 = priority then (e.1, setAdd e.2 manager) else e)
  else lm ++ [(priority, setAdd [] manager)]

/-- Calling `add_lifespan_manager` without an explicit priority uses the
default `priority=1000` (`fastapi.py` line 180). -/
def add_lifespan_manager_default (lm : List (Int × List Manager))
    (manager : Manager) : List (Int × List Manager) :=
  add_lifespan_manager lm manager 1000

theorem setAdd_mem (s : List Manager) (m : Manager) : m ∈ setAdd s m := by
  unfold setAdd
  by_cases h : m ∈ s
  · rwa [if_pos h]
  · rw [if_neg h]
    simp

theorem setAdd_idem (s : List Manager) (m : Manager) :
    setAdd (setAdd s m) m = setAdd s m := by
  unfold setAdd
  rw [if_pos]
  exact setAdd_mem s m

/-- C9: registering the same manager twice at the same priority leaves
the lifespan-manager state identical to registering it once (set
semantics), and the default priority is 1000. -/
theorem add_lifespan_manager_idem (lm : List (Int × List Manager))
    (m : Manager) (p : Int) :
    add_lifespan_manager (add_lifespan_manager lm m p) m p =
      add_lifespan_manager lm m p ∧
    add_lifespan_manager_default lm m = add_lifespan_manager lm m 1000 := by
  refine ⟨?_, rfl⟩
  by_cases h : lm.any (fun e => e.1 = p) = true
  · have hmap1 : add_lifespan_manager lm m p =
        lm.map (fun e => if e.1 = p then (e.1, setAdd e.2 m) else e) := by
      unfold add_lifespan_manager
      rw [if_pos h]
    have hkeys : (lm.map (fun e =>
        if e.1 = p then (e.1, setAdd e.2 m) else e)).any
          (fun e => e.1 = p) = true := by
      rw [List.any_map]
      rw [List.any_eq_true] at h ⊢
      obtain ⟨e, he, hep⟩ := h
      refine ⟨e, he, ?_⟩
      simp only [Function.comp]
      simp only [decide_eq_true_eq] at hep
      simp [hep]
    rw [hmap1]
    unfold add_lifespan_manager
    rw [if_pos hkeys]
    rw [List.map_map]
    apply List.map_congr_left
    intro e _
    simp only [Function.comp]
    by_cases hcase : e.1 = p
    · simp [hcase, setAdd_idem]
    · simp [hcase]
  · have happ : add_lifespan_manager lm m p = lm ++ [(p, setAdd [] m)] := by
      unfold add_lifespan_manager
      rw [if_neg h]
    have hnone : ∀ e ∈ lm, ¬(e.1 = p) := by
      intro e he
      rw [List.any_eq_true] at h
      push_neg at h
      have := h e he
      simpa using this
    have hkeys : (lm ++ [(p, setAdd [] m)]).any (fun e => e.1 = p) = true := by
      simp [List.any_append]
    rw [happ]
    unfold add_lifespan_manager
    rw [if_pos hkeys]
    rw [List.map_append]
    congr 1
    · conv_rhs => rw [← List.map_id lm]
      apply List.map_congr_left
      intro e he
      simp [hnone e he]
    · simp [setAdd_idem]

/-- Model of `FastAPIIntegrationSystem.add_healthcheck` (`fastapi.py`
lines 195-210): raises `ValueError("Name already used")` when the name
is already a key of the healthcheck dict, otherwise appends the new
entry (dicts preserve insertion order). -/
def add_healthcheck {α : Type} (healthchecks : List (String × α))
    (name : String) (healthcheck : α) :
    Except String (List (String × α)) :=
  if healthchecks.any (fun e => e.1 = name) then
    .error "Name already used"
  else .ok (healthchecks ++ [(name, healthcheck)])

/-- C5: `add_healthcheck` fails exactly when the name is already
registered, otherwise it appends the named check; in particular a
second registration under the same name fails. -/
theorem add_healthcheck_spec {α : Type} (hcs : List (String × α))
    (n : String) (f g : α) :
    (add_healthcheck hcs n f = .error "Name already used" ↔
      ∃ e ∈ hcs, e.1 = n) ∧
    ((∀ e ∈ hcs, e.1 ≠ n) →
      add_healthcheck hcs n f = .ok (hcs ++ [(n, f)])) ∧
    (∀ hcs2, add_healthcheck hcs n f = .ok hcs2 →
      add_healthcheck hcs2 n g = .error "Name already used") := by
  refine ⟨?_, ?_, ?_⟩
  · unfold add_healthcheck
    by_cases h : hcs.any (fun e => e.1 = n) = true
    · rw [if_pos h]
      rw [List.any_eq_true] at h
      simpa using h
    · rw [if_neg h]
      rw [List.any_eq_true] at h
      push_neg at h
      constructor
      · intro hcon; cases hcon
      · rintro ⟨e, he, hen⟩
        have := h e he
        simp [hen] at this
  · intro hfree
    have hany : ¬((hcs.any (fun e => e.1 = n)) = true) := by
      rw [List.any_eq_true]
      rintro ⟨e, he, hen⟩
      exact hfree e he (by simpa using hen)
    unfold add_healthcheck
    rw [if_neg hany]
  · intro hcs2 hok
    unfold add_healthcheck at hok
    by_cases h : hcs.any (fun e => e.1 = n) = true
    · rw [if_pos h] at hok; cases hok
    · rw [if_neg h] at hok
      have hcs2_eq : hcs2 = hcs ++ [(n, f)] := by
        cases hok; rfl
      unfold add_healthcheck
      rw [if_pos]
      subst hcs2_eq
      simp [List.any_append]

/-- Witness for C5: registering `"x"` on an empty dict succeeds and a
second registration of `"x"` raises. -/
theorem add_healthcheck_spec_witness :
    add_healthcheck ([] : List (String × Nat)) "x" 1 = .ok [("x", 1)] ∧
    add_healthcheck [("x", 1)] "x" 2 = .error "Name already used" := by
  constructor
  · exact (add_healthcheck_spec ([] : List (String × Nat)) "x" 1 2).2.1
      (by simp)
  · exact (add_healthcheck_spec ([] : List (String × Nat)) "x" 1 2).2.2
      [("x", 1)] ((add_healthcheck_spec ([] : List (String × Nat))
        "x" 1 2).2.1 (by simp))

/-- A single step of `dict.update(**kwargs)` for the user-context dict
(`fastapi.py` line 224): an existing key is overwritten in place,
a new key is appended. -/
def dict_update_one {α : Type} (d : List (String × α))
    (kv : String × α) : List (String × α) :=
  if d.any (fun e => e.1 = kv.1) then
    d.map (fun e => if e.1 = kv.1 then kv else e)
  else d ++ [kv]

/-- Model of `FastAPIIntegrationSystem.add_context` (`fastapi.py`
lines 212-224): `self._context["user_context"].update(**kwargs)`,
merging every keyword pair into the user-context dict. -/
def add_context {α : Type} (user_context : List (String × α))
    (kwargs : List (String × α)) : List (String × α) :=
  kwargs.foldl dict_update_one user_context

/-- Dict lookup: the value of the first entry with the given key. -/
def dlookup {α : Type} (d : List (String × α)) (k : String) : Option α :=
  (d.find? (fun e => e.1 = k)).map (fun e => e.2)

theorem dlookup_update_self {α : Type} (d : List (String × α))
    (k : String) (v : α) :
    dlookup (dict_update_one d (k, v)) k = some v := by
  unfold dict_update_one dlookup
  by_cases h : (d.any (fun x => x.1 = (k, v).1)) = true
  · rw [if_pos h]
    rw [List.find?_map]
    have hfn : ((fun e : String × α => decide (e.1 = k)) ∘
        (fun e => if e.1 = (k, v).1 then (k, v) else e)) =
        (fun e : String × α => decide (e.1 = k)) := by
      funext e
      simp only [Function.comp]
      by_cases hek : e.1 = k <;> simp [hek]
    rw [hfn]
    rw [List.any_eq_true] at h
    obtain ⟨e₀, he₀, hk₀⟩ := h
    simp only [decide_eq_true_eq] at hk₀
    have hsome : (d.find? (fun e => decide (e.1 = k))).isSome := by
      rw [List.find?_isSome]
      exact ⟨e₀, he₀, by simpa using hk₀⟩
    obtain ⟨e₁, he₁⟩ := Option.isSome_iff_exists.mp hsome
    have hk₁ : e₁.1 = k := by
      have := List.find?_some he₁
      simpa using this
    rw [he₁]
    simp [hk₁]
  · rw [if_neg h]
    rw [List.find?_append]
    have hnone : d.find? (fun e => decide (e.1 = k)) = none := by
      rw [List.find?_eq_none]
      intro x hx
      rw [List.any_eq_true] at h
      push_neg at h
      have := h x hx
      simpa using this
    rw [hnone]
    simp

theorem dlookup_update_other {α : Type} (d : List (String × α))
    (k k' : String) (v : α) (hne : k' ≠ k) :
    dlookup (dict_update_one d (k, v)) k' = dlookup d k' := by
  unfold dict_update_one dlookup
  by_cases h : (d.any (fun x => x.1 = (k, v).1)) = true
  · rw [if_pos h]
    rw [List.find?_map]
    have hfn : ((fun e : String × α => decide (e.1 = k')) ∘
        (fun e => if e.1 = (k, v).1 then (k, v) else e)) =
        (fun e : String × α => decide (e.1 = k')) := by
      funext e
      simp only [Function.comp]
      by_cases hek : e.1 = k
      · simp [hek, Ne.symm hne]
      · simp [hek]
    rw [hfn]
    cases hfind : d.find? (fun e => decide (e.1 = k')) with
    | none => simp
    | some e₁ =>
      have hk₁ : e₁.1 = k' := by
        have := List.find?_some hfind
        simpa using this
      have : e₁.1 ≠ k := by rw [hk₁]; exact hne
      simp [this]
  · rw [if_neg h]
    rw [List.find?_append]
    have hlast : List.find? (fun e : String × α => decide (e.1 = k'))
        [(k, v)] = none := by
      simp [Ne.symm hne]
    rw [hlast]
    simp

/-- C8: `add_context` merges key-value pairs with last-write-wins
semantics: writing `k=v1` and then `k=v2` leaves the user-context
holding `v2` at `k`, and a single write leaves every other key
unchanged. -/
theorem add_context_last_write_wins {α : Type}
    (ctx : List (String × α)) (k : String) (v1 v2 : α) :
    dlookup (add_context (add_context ctx [(k, v1)]) [(k, v2)]) k =
      some v2 ∧
    (∀ k', k' ≠ k → dlookup (add_context ctx [(k, v1)]) k' =
      dlookup ctx k') := by
  constructor
  · unfold add_context
    simp only [List.foldl]
    exact dlookup_update_self _ k v2
  · intro k' hne
    unfold add_context
    simp only [List.foldl]
    exact dlookup_update_other ctx k k' v1 hne

/-- Witness for C8: `add_context(a=1)` then `add_context(a=2)` leaves
`{"a": 2}` at key `"a"` and key `"b"` untouched. -/
theorem add_context_last_write_wins_witness :
    dlookup (add_context (add_context [("b", (7 : Nat))] [("a", 1)])
      [("a", 2)]) "a" = some 2 ∧
    dlookup (add_context [("b", (7 : Nat))] [("a", 1)]) "b" =
      dlookup [("b", (7 : Nat))] "b" :=
  ⟨(add_context_last_write_wins [("b", 7)] "a" 1 2).1,
   (add_context_last_write_wins [("b", 7)] "a" 1 2).2 "b" (by decide)⟩

/-- A RabbitMQ queue as listed by the management API
(`pytest_plugin.py` line 206): identified by vhost and name. -/
structure Queue where
  vhost : String
  name : String
deriving DecidableEq, Repr

/-- Model of `asyncio.gather(*aws)` with the default
`return_exceptions=False` over coroutines that return nothing: if
every awaitable succeeds the gather succeeds, otherwise the first
exception propagates and the whole gather raises. -/
def asyncio_gather (results : List (Except Nat Unit)) : Except Nat Unit :=
  match results with
  | [] => .ok ()
  | .ok () :: rest => asyncio_gather rest
  | .error e :: _ => .error e

/-- The `amqp_queue_isolation` fixture (`pytest_plugin.py`
lines 198-217): one management-API delete request per listed queue,
all issued before any is awaited, then gathered. `delete` gives each
queue's HTTP outcome (an `Except` error is a raised
`httpx.HTTPError`). -/
def amqp_queue_isolation (queues : List Queue)
    (delete : Queue → Except Nat Unit) : Except Nat Unit :=
  asyncio_gather (queues.map delete)

theorem asyncio_gather_ok_iff (results : List (Except Nat Unit)) :
    (asyncio_gather results = .ok () ↔ ∀ r ∈ results, r = .ok ()) ∧
    (∀ e, asyncio_gather results = .error e → .error e ∈ results) := by
  induction results with
  | nil => simp [asyncio_gather]
  | cons r rest ih =>
    cases r with
    | ok u =>
      cases u
      constructor
      · rw [show asyncio_gather (.ok () :: rest) = asyncio_gather rest
          from rfl]
        rw [ih.1]
        constructor
        · intro hall
          intro x hx
          rcases List.mem_cons.mp hx with rfl | hx'
          · rfl
          · exact hall x hx'
        · intro hall x hx
          exact hall x (List.mem_cons_of_mem _ hx)
      · intro e he
        exact List.mem_cons_of_mem _ (ih.2 e he)
    | error e₀ =>
      constructor
      · rw [show asyncio_gather (.error e₀ :: rest) = .error e₀ from rfl]
        constructor
        · intro hcon; cases hcon
        · intro hall
          have := hall (.error e₀) (List.mem_cons_self _ _)
          cases this
      · intro e he
        rw [show asyncio_gather (.error e₀ :: rest) = .error e₀ from rfl]
          at he
        cases he
        exact List.mem_cons_self _ _

/-- C6: queue isolation issues a delete for every listed queue and
succeeds exactly when every delete succeeds; any single HTTP error
makes the whole step fail with that error propagated (no retry, no
suppression). -/
theorem amqp_queue_isolation_spec (queues : List Queue)
    (delete : Queue → Except Nat Unit) :
    (amqp_queue_isolation queues delete = .ok () ↔
      ∀ q ∈ queues, delete q = .ok ()) ∧
    (∀ e, amqp_queue_isolation queues delete = .error e →
      ∃ q ∈ queues, delete q = .error e) := by
  constructor
  · unfold amqp_queue_isolation
    rw [(asyncio_gather_ok_iff (queues.map delete)).1]
    constructor
    · intro hall q hq
      exact hall (delete q) (List.mem_map_of_mem delete hq)
    · intro hall r hr
      rw [List.mem_map] at hr
      obtain ⟨q, hq, rfl⟩ := hr
      exact hall q hq
  · intro e he
    unfold amqp_queue_isolation at he
    have := (asyncio_gather_ok_iff (queues.map delete)).2 e he
    rw [List.mem_map] at this
    obtain ⟨q, hq, hdel⟩ := this
    exact ⟨q, hq, hdel⟩

/-- A demonstration delete outcome: the delete of queue `q2` fails
with HTTP status 500. -/
def deleteDemo (q : Queue) : Except Nat Unit :=
  if q.name = "q2" then .error 500 else .ok ()

/-- Witness for C6: with two queues whose second delete fails, the
isolation step fails and the error is traced to a queue. -/
theorem amqp_queue_isolation_spec_witness :
    ∃ q ∈ ([⟨"vh", "q1"⟩, ⟨"vh", "q2"⟩] : List Queue),
      deleteDemo q = .error 500 :=
  (amqp_queue_isolation_spec [⟨"vh", "q1"⟩, ⟨"vh", "q2"⟩] deleteDemo).2
    500 (by simp [amqp_queue_isolation, asyncio_gather, deleteDemo])

/-- Outcome of awaiting the `emitter` background task after
`task.cancel()` (`pytest_plugin.py` lines 168-180): either the
cooperative cancellation (`asyncio.CancelledError`) or an exception
that was already raised inside the task, such as an HTTP error from
`r.raise_for_status()`. -/
inductive TaskError where
  | cancelledError
  | httpError (status : Nat)
deriving DecidableEq, Repr

/-- Model of `httpx.Response.raise_for_status`: it raises an HTTP error for 4xx
and 5xx status codes. -/
def raise_for_status (status : Nat) : Except TaskError Unit :=
  if 400 ≤ status then .error (.httpError status) else .ok ()

/-- Model of `contextlib.suppress(CancelledError)` around `await task`: a
`CancelledError` is swallowed, every other outcome passes through. -/
def suppress_cancelled (r : Except TaskError Unit) : Except TaskError Unit :=
  match r with
  | .error .cancelledError => .ok ()
  | r => r

/-- Teardown of the `amqp_event_emitter` fixture (`pytest_plugin.py`
lines 176-180): the task is cancelled and awaited, with only
`CancelledError` suppressed, before teardown completes. -/
def amqp_event_emitter_teardown (taskResult : Except TaskError Unit) :
    Except TaskError Unit :=
  suppress_cancelled taskResult

/-- C7: at teardown the awaited task's cancellation is swallowed, but
any other exception raised inside the task — in particular an HTTP
error from the emit request's `raise_for_status` — surfaces to the
test. -/
theorem amqp_event_emitter_teardown_spec :
    amqp_event_emitter_teardown (.error .cancelledError) = .ok () ∧
    (∀ s, 400 ≤ s →
      amqp_event_emitter_teardown (Except.map (fun _ => ())
        (raise_for_status s)) = .error (.httpError s)) ∧
    (∀ e, e ≠ .cancelledError →
      amqp_event_emitter_teardown (.error e) = .error e) := by
  refine ⟨rfl, ?_, ?_⟩
  · intro s hs
    unfold raise_for_status
    rw [if_pos hs]
    rfl
  · intro e he
    cases e with
    | cancelledError => exact absurd rfl he
    | httpError s => rfl

/-- Witness for C7: an HTTP 500 from the emit request surfaces at
teardown, a plain cancellation does not. -/
theorem amqp_event_emitter_teardown_spec_witness :
    amqp_event_emitter_teardown (Except.map (fun _ => ())
      (raise_for_status 500)) = .error (.httpError 500) ∧
    amqp_event_emitter_teardown (.error .cancelledError) = .ok () :=
  ⟨amqp_event_emitter_teardown_spec.2.1 500 (by decide),
   amqp_event_emitter_teardown_spec.1⟩

end FastRAMQPI
